import Mathlib

/-!
Verification of the scanning core of a lexical analyser for a C-like toy
language.  The definitions below are a shallow embedding of the Rust source
file `src/lexer/src/core.rs`: the `Lexer` struct becomes a structure holding
the character list and the cursor position, and each `&mut self` method
becomes a pure function returning the updated state.  The cached field
`current` of the Rust struct always equals `input[position]` (or the sentinel
`'@'` at or past the end) from the moment `lex` assigns `input[0]` onwards,
so it is modelled as a derived function of the state; the out-of-bounds read
`input[0]` that `lex` performs on empty input is modelled by returning `none`
(a panic) in that case.

Loops and the mutual recursion between `next_token` and `handle_comments`
are modelled with an explicit fuel parameter (structural recursion), and the
public entry points pass a fuel that is always sufficient, so every
definition is executable by kernel reduction.
-/

/-- Modelled from the spec: the token enum `crate::token::Token` is not part
of the given sources; its variants are taken from their uses in `core.rs`
and from sections 3, 4.4 and 6 of the specification.  Most variants carry no
payload; identifiers and numeric literals carry the raw character run. -/
inductive Token where
  | STRUCT | ENUM | IF | ELSE | RETURN | FOR | WHILE | DO | BREAK | CONTINUE
  | SWITCH | CASE | TINTEGER | TBOOLEAN | TDOUBLE | TFLOAT | TCHAR | TVOID
  | TSIGNINT | TUSIGN | TLONG | CONST | CTRUE
  | IDENTIFIER (chars : List Char)
  | NUMBER (chars : List Char)
  | EQUAL | EQUALEQUAL | NOTEQUAL | EXCLAMATIONPOINT
  | LESSTHAN | LESSTHANEQUAL | GREATERTHAN | GREATERTHANEQUAL
  | PLUS | PLUSPLUS | DASH | MINUSMINUS | POINTER
  | AMPERSAND | ANDAND | BAR | BARBAR
  | ASTERISK | FSLASH | PERCENT
  | LBRACKET | RBRACKET | LPAREN | RPAREN | LBRACE | RBRACE
  | SEMICOLON | COLON | COMMA | DOT | CARET | TILDE
  | EOF

namespace Token

/-- A numeric tag for each token constructor (PartialEq on the Rust enum is
decided here through the tag and the payload, which keeps the decision
procedure small). -/
def ctorCode : Token → Nat
  | STRUCT => 0 | ENUM => 1 | IF => 2 | ELSE => 3 | RETURN => 4 | FOR => 5
  | WHILE => 6 | DO => 7 | BREAK => 8 | CONTINUE => 9 | SWITCH => 10
  | CASE => 11 | TINTEGER => 12 | TBOOLEAN => 13 | TDOUBLE => 14
  | TFLOAT => 15 | TCHAR => 16 | TVOID => 17 | TSIGNINT => 18 | TUSIGN => 19
  | TLONG => 20 | CONST => 21 | CTRUE => 22
  | IDENTIFIER _ => 23 | NUMBER _ => 24
  | EQUAL => 25 | EQUALEQUAL => 26 | NOTEQUAL => 27 | EXCLAMATIONPOINT => 28
  | LESSTHAN => 29 | LESSTHANEQUAL => 30 | GREATERTHAN => 31
  | GREATERTHANEQUAL => 32 | PLUS => 33 | PLUSPLUS => 34 | DASH => 35
  | MINUSMINUS => 36 | POINTER => 37 | AMPERSAND => 38 | ANDAND => 39
  | BAR => 40 | BARBAR => 41 | ASTERISK => 42 | FSLASH => 43 | PERCENT => 44
  | LBRACKET => 45 | RBRACKET => 46 | LPAREN => 47 | RPAREN => 48
  | LBRACE => 49 | RBRACE => 50 | SEMICOLON => 51 | COLON => 52 | COMMA => 53
  | DOT => 54 | CARET => 55 | TILDE => 56 | EOF => 57

/-- The character payload of a token (empty for payload-free variants). -/
def payloadOf : Token → List Char
  | IDENTIFIER cs => cs
  | NUMBER cs => cs
  | _ => []

/-- Inverse of `ctorCode`/`payloadOf`, used to show that the pair determines
the token. -/
def ofCode (k : Nat) (cs : List Char) : Token :=
  if k = 0 then STRUCT else if k = 1 then ENUM else if k = 2 then IF
  else if k = 3 then ELSE else if k = 4 then RETURN else if k = 5 then FOR
  else if k = 6 then WHILE else if k = 7 then DO else if k = 8 then BREAK
  else if k = 9 then CONTINUE else if k = 10 then SWITCH
  else if k = 11 then CASE else if k = 12 then TINTEGER
  else if k = 13 then TBOOLEAN else if k = 14 then TDOUBLE
  else if k = 15 then TFLOAT else if k = 16 then TCHAR
  else if k = 17 then TVOID else if k = 18 then TSIGNINT
  else if k = 19 then TUSIGN else if k = 20 then TLONG
  else if k = 21 then CONST else if k = 22 then CTRUE
  else if k = 23 then IDENTIFIER cs else if k = 24 then NUMBER cs
  else if k = 25 then EQUAL else if k = 26 then EQUALEQUAL
  else if k = 27 then NOTEQUAL else if k = 28 then EXCLAMATIONPOINT
  else if k = 29 then LESSTHAN else if k = 30 then LESSTHANEQUAL
  else if k = 31 then GREATERTHAN else if k = 32 then GREATERTHANEQUAL
  else if k = 33 then PLUS else if k = 34 then PLUSPLUS
  else if k = 35 then DASH else if k = 36 then MINUSMINUS
  else if k = 37 then POINTER else if k = 38 then AMPERSAND
  else if k = 39 then ANDAND else if k = 40 then BAR
  else if k = 41 then BARBAR else if k = 42 then ASTERISK
  else if k = 43 then FSLASH else if k = 44 then PERCENT
  else if k = 45 then LBRACKET else if k = 46 then RBRACKET
  else if k = 47 then LPAREN else if k = 48 then RPAREN
  else if k = 49 then LBRACE else if k = 50 then RBRACE
  else if k = 51 then SEMICOLON else if k = 52 then COLON
  else if k = 53 then COMMA else if k = 54 then DOT
  else if k = 55 then CARET else if k = 56 then TILDE
  else EOF

theorem ofCode_ctorCode : ∀ t : Token, ofCode (ctorCode t) (payloadOf t) = t := by
  intro t
  cases t <;> rfl

instance : DecidableEq Token := fun a b =>
  if h1 : ctorCode a = ctorCode b then
    if h2 : payloadOf a = payloadOf b then
      isTrue (by
        calc a = ofCode (ctorCode a) (payloadOf a) := (ofCode_ctorCode a).symm
          _ = ofCode (ctorCode b) (payloadOf b) := by rw [h1, h2]
          _ = b := ofCode_ctorCode b)
    else isFalse (fun he => h2 (by rw [he]))
  else isFalse (fun he => h1 (by rw [he]))

end Token

/-- Modelled from the spec: the error enum `common::error::ErrorType` is not
part of the given sources; `core.rs` only ever builds
`ErrorType::UnrecognizedToken { token }` with a one-character string, which
is the single error kind section 3 of the specification describes. -/
inductive ErrorType where
  | UnrecognizedToken (token : String)
deriving DecidableEq, Repr

/-- The `Lexer` struct of `core.rs`.  The cached `current` field is a
derived function (`Lexer.current`) rather than stored state; see the header
comment. -/
structure Lexer where
  input : List Char
  position : Nat
deriving DecidableEq, Repr

namespace Lexer

/-- The cached current character: `input[position]` when in bounds, the
sentinel `'@'` otherwise.  This is the value the Rust field `current` holds
at every program point after `lex` has assigned `input[0]` (all later writes
to the field go through `read_char`, which maintains exactly this value). -/
def current (s : Lexer) : Char :=
  if h : s.position < s.input.length then s.input.get ⟨s.position, h⟩ else '@'

/-- Advances the currently read character (`read_char` in `core.rs`):
increments the position; the cached character update is implicit here
because `current` is derived. -/
def read_char (s : Lexer) : Lexer :=
  { s with position := s.position + 1 }

/-- Advances the currently read character n times (`read_chars`). -/
def read_chars (s : Lexer) : Nat → Lexer
  | 0 => s
  | n + 1 => s.read_char.read_chars n

/-- Gives the next character without changing the position (`peek_char`). -/
def peek_char (s : Lexer) : Char :=
  if h : s.position + 1 < s.input.length then s.input.get ⟨s.position + 1, h⟩
  else '@'

/-- Gives the next n characters without changing the position
(`peek_chars`), each replaced by the sentinel when past the end. -/
def peek_chars (s : Lexer) : Nat → List Char
  | 0 => []
  | n + 1 =>
    (if h : s.position < s.input.length then s.input.get ⟨s.position, h⟩
     else '@') :: s.read_char.peek_chars n

/-- Helper function to create unrecognized token error
(`make_unrecognized_error`): a one-character string payload. -/
def make_unrecognized_error (c : Char) : ErrorType :=
  ErrorType.UnrecognizedToken (String.mk [c])

end Lexer

/-- The Unicode White_Space property, which is what Rust's
`char::is_whitespace` tests (the `skip_whitespace` loop relies on it).  The
set is closed and small, so it is enumerated here over scalar values. -/
def rustIsWhitespace (c : Char) : Bool :=
  (decide (9 ≤ c.toNat) && decide (c.toNat ≤ 13)) || c.toNat == 32 ||
  c.toNat == 0x85 || c.toNat == 0xa0 || c.toNat == 0x1680 ||
  (decide (0x2000 ≤ c.toNat) && decide (c.toNat ≤ 0x200a)) ||
  c.toNat == 0x2028 || c.toNat == 0x2029 || c.toNat == 0x202f ||
  c.toNat == 0x205f || c.toNat == 0x3000

/-- The Rust range pattern `'0'..='9'` for ASCII digits used in `numbers`
and in the dispatch of `next_token` (scalar-value range check). -/
def isDigitChar (c : Char) : Bool :=
  decide (48 ≤ c.toNat) && decide (c.toNat ≤ 57)

/-- The Rust pattern `'a'..='z' | 'A'..='Z' | '_'` for letters and
underscore used in the dispatch of `next_token`. -/
def isLetterOrUnderscoreChar (c : Char) : Bool :=
  (decide (97 ≤ c.toNat) && decide (c.toNat ≤ 122)) ||
  (decide (65 ≤ c.toNat) && decide (c.toNat ≤ 90)) || c.toNat == 95

/-- The character class `'a'..='z' | 'A'..='Z' | '0'..='9' | '_'` of the
identifier-continuation loop in `handle_keywords_and_identifiers`. -/
def isIdentContChar (c : Char) : Bool :=
  (decide (97 ≤ c.toNat) && decide (c.toNat ≤ 122)) ||
  (decide (65 ≤ c.toNat) && decide (c.toNat ≤ 90)) ||
  (decide (48 ≤ c.toNat) && decide (c.toNat ≤ 57)) || c.toNat == 95

/-- The characters handled by the single-or-double-character arm of
`next_token` that routes to `handle_single_char_token`. -/
def isSingleCharSym (c : Char) : Bool :=
  c == '*' || c == '/' || c == '%' || c == '\x7b' || c == '\x7d' ||
  c == '(' || c == ')' || c == '[' || c == ']' || c == ';' || c == ':' ||
  c == ',' || c == '.' || c == '^' || c == '~' || c == '?'

/-- A character in the complement of every class the dispatch of
`next_token` matches: not whitespace, not a comment starter, not the first
character of any token, not the sentinel.  Such a character reaches the
final catch-all arm of the dispatch and is reported as unrecognized. -/
def isUnrecognizedChar (c : Char) : Bool :=
  !rustIsWhitespace c &&
  !(c == '=' || c == '!' || c == '<' || c == '>') && !(c == '@') &&
  !isDigitChar c && !isLetterOrUnderscoreChar c &&
  !(c == '+') && !(c == '-') && !(c == '&') && !(c == '|') &&
  !isSingleCharSym c

namespace Lexer

/-- One fuelled unfolding of the `while self.current.is_whitespace()` loop
of `skip_whitespace`. -/
def skipWsF : Nat → Lexer → Lexer
  | 0, s => s
  | n + 1, s =>
    if rustIsWhitespace s.current then skipWsF n s.read_char else s

/-- The `skip_whitespace` method; the fuel `input.length + 1` always
suffices because each iteration advances the position and the loop stops at
the sentinel. -/
def skip_whitespace (s : Lexer) : Lexer :=
  skipWsF (s.input.length + 1) s

/-- The single-line-comment loop of `handle_comments`:
`while self.current != '\n' && self.current != '@' { self.read_char(); }`. -/
def skipLineF : Nat → Lexer → Lexer
  | 0, s => s
  | n + 1, s =>
    if s.current ≠ '\n' ∧ s.current ≠ '@' then skipLineF n s.read_char else s

/-- The block-comment loop of `handle_comments`, carrying the nesting
`level`.  Returns `true` with the state after the closing `*/` when the
level reaches zero, and `false` with the unchanged-at-`'@'` state when the
loop hits the sentinel (unterminated comment, or a literal `'@'`). -/
def blockLoopF : Nat → Nat → Lexer → Bool × Lexer
  | 0, _, s => (false, s)
  | n + 1, level, s =>
    if s.current = '*' ∧ s.peek_char = '/' then
      if level - 1 = 0 then (true, s.read_char.read_char)
      else blockLoopF n (level - 1) s.read_char.read_char
    else if s.current = '/' ∧ s.peek_char = '*' then
      blockLoopF n (level + 1) s.read_char.read_char
    else if s.current = '@' then
      (false, s)
    else
      blockLoopF n level s.read_char

/-- Processes boolean comparison operators (`boolean_comparison`).  When the
two-character form matches, the state is advanced once here; the caller
performs the unconditional second advance. -/
def boolean_comparison (s : Lexer) : Except ErrorType Token × Lexer :=
  if s.current = '=' then
    if s.peek_char = '=' then (Except.ok Token.EQUALEQUAL, s.read_char)
    else (Except.ok Token.EQUAL, s)
  else if s.current = '!' then
    if s.peek_char = '=' then (Except.ok Token.NOTEQUAL, s.read_char)
    else (Except.ok Token.EXCLAMATIONPOINT, s)
  else if s.current = '<' then
    if s.peek_char = '=' then (Except.ok Token.LESSTHANEQUAL, s.read_char)
    else (Except.ok Token.LESSTHAN, s)
  else if s.current = '>' then
    if s.peek_char = '=' then (Except.ok Token.GREATERTHANEQUAL, s.read_char)
    else (Except.ok Token.GREATERTHAN, s)
  else
    (Except.error (make_unrecognized_error s.current), s)

end Lexer

/-- The fixed keyword table of `handle_keywords_and_identifiers`, in source
order. -/
def keyword_map : List (String × Token) :=
  [("struct", Token.STRUCT), ("enum", Token.ENUM), ("if", Token.IF),
   ("else", Token.ELSE), ("return", Token.RETURN), ("for", Token.FOR),
   ("while", Token.WHILE), ("do", Token.DO), ("break", Token.BREAK),
   ("continue", Token.CONTINUE), ("switch", Token.SWITCH),
   ("case", Token.CASE), ("int", Token.TINTEGER), ("bool", Token.TBOOLEAN),
   ("double", Token.TDOUBLE), ("float", Token.TFLOAT), ("char", Token.TCHAR),
   ("void", Token.TVOID), ("signed", Token.TSIGNINT),
   ("unsigned", Token.TUSIGN), ("long", Token.TLONG), ("const", Token.CONST),
   ("true", Token.CTRUE)]

namespace Lexer

/-- The identifier-collection loop of `handle_keywords_and_identifiers`:
while the peeked character is a letter, digit or underscore, push it and
advance. -/
def identLoopF : Nat → Lexer → List Char → List Char × Lexer
  | 0, s, acc => (acc, s)
  | n + 1, s, acc =>
    if isIdentContChar s.peek_char then
      identLoopF n s.read_char (acc ++ [s.peek_char])
    else (acc, s)

/-- Handles keywords and identifiers starting with letters or underscore
(`handle_keywords_and_identifiers`): collects the entire run, then returns
the first keyword whose spelling equals the whole run, or an identifier. -/
def handle_keywords_and_identifiers (s : Lexer) :
    Except ErrorType Token × Lexer :=
  let r := identLoopF (s.input.length + 1) s [s.current]
  let identifier := String.mk r.1
  match keyword_map.find? (fun kv => identifier == kv.1) with
  | some kv => (Except.ok kv.2, r.2)
  | none => (Except.ok (Token.IDENTIFIER r.1), r.2)

/-- The digit-collection loop of `numbers`. -/
def numLoopF : Nat → Lexer → List Char → List Char × Lexer
  | 0, s, acc => (acc, s)
  | n + 1, s, acc =>
    if isDigitChar s.peek_char then
      numLoopF n s.read_char (acc ++ [s.peek_char])
    else (acc, s)

/-- Handles numbers (`numbers`). -/
def numbers (s : Lexer) : Except ErrorType Token × Lexer :=
  if ¬ isDigitChar s.current then
    (Except.error (make_unrecognized_error s.current), s)
  else
    let r := numLoopF (s.input.length + 1) s [s.current]
    (Except.ok (Token.NUMBER r.1), r.2)

/-- Handles plus sign and increment operator (`handle_plus`). -/
def handle_plus (s : Lexer) : Except ErrorType Token × Lexer :=
  if s.peek_char = '+' then (Except.ok Token.PLUSPLUS, s.read_char)
  else (Except.ok Token.PLUS, s)

/-- Handles minus sign, decrement operator, and pointer (`handle_minus`). -/
def handle_minus (s : Lexer) : Except ErrorType Token × Lexer :=
  if s.peek_char = '>' then (Except.ok Token.POINTER, s.read_char)
  else if s.peek_char = '-' then (Except.ok Token.MINUSMINUS, s.read_char)
  else (Except.ok Token.DASH, s)

/-- Handles ampersand and logical AND (`handle_ampersand`). -/
def handle_ampersand (s : Lexer) : Except ErrorType Token × Lexer :=
  if s.peek_char = '&' then (Except.ok Token.ANDAND, s.read_char)
  else (Except.ok Token.AMPERSAND, s)

/-- Handles pipe and logical OR (`handle_pipe`). -/
def handle_pipe (s : Lexer) : Except ErrorType Token × Lexer :=
  if s.peek_char = '|' then (Except.ok Token.BARBAR, s.read_char)
  else (Except.ok Token.BAR, s)

/-- Handles special-character tokens and single-character tokens
(`handle_single_char_token`); `&self` only, so no state component. -/
def handle_single_char_token (c : Char) : Except ErrorType Token :=
  if c = '@' then Except.ok Token.EOF
  else if c = '*' then Except.ok Token.ASTERISK
  else if c = '/' then Except.ok Token.FSLASH
  else if c = '%' then Except.ok Token.PERCENT
  else if c = '\x7b' then Except.ok Token.LBRACKET
  else if c = '\x7d' then Except.ok Token.RBRACKET
  else if c = '(' then Except.ok Token.LPAREN
  else if c = ')' then Except.ok Token.RPAREN
  else if c = '[' then Except.ok Token.LBRACE
  else if c = ']' then Except.ok Token.RBRACE
  else if c = ';' then Except.ok Token.SEMICOLON
  else if c = ':' then Except.ok Token.COLON
  else if c = ',' then Except.ok Token.COMMA
  else if c = '.' then Except.ok Token.DOT
  else if c = '^' then Except.ok Token.CARET
  else if c = '~' then Except.ok Token.TILDE
  else if c = '?' then Except.ok Token.CTRUE
  else Except.error (make_unrecognized_error c)

/-- The body of `next_token` after whitespace skipping and comment handling:
the comparison-operator cluster, then the dispatch match of lines 421-465 of
`core.rs`, including the trailing unconditional `read_char` (and the early
returns of the `'&'` and `'|'` arms, which advance only on `Ok`). -/
def nextTokenBody (s : Lexer) : Except ErrorType Token × Lexer :=
  if s.current = '=' ∨ s.current = '!' ∨ s.current = '<' ∨ s.current = '>' then
    let r := boolean_comparison s
    (r.1, r.2.read_char)
  else if s.current = '@' then
    if s.input.length ≤ s.position then (Except.ok Token.EOF, s.read_char)
    else (Except.error (make_unrecognized_error '@'), s.read_char)
  else if isDigitChar s.current then
    let r := numbers s
    (r.1, r.2.read_char)
  else if isLetterOrUnderscoreChar s.current then
    let r := handle_keywords_and_identifiers s
    (r.1, r.2.read_char)
  else if s.current = '+' then
    let r := handle_plus s
    (r.1, r.2.read_char)
  else if s.current = '-' then
    let r := handle_minus s
    (r.1, r.2.read_char)
  else if s.current = '&' then
    let r := handle_ampersand s
    match r.1 with
    | Except.ok _ => (r.1, r.2.read_char)
    | Except.error _ => (r.1, r.2)
  else if s.current = '|' then
    let r := handle_pipe s
    match r.1 with
    | Except.ok _ => (r.1, r.2.read_char)
    | Except.error _ => (r.1, r.2)
  else if isSingleCharSym s.current then
    (handle_single_char_token s.current, s.read_char)
  else
    (Except.error (make_unrecognized_error s.current), s.read_char)

end Lexer

mutual

/-- Returns the current token type and advances to the next token
(`next_token`), fuelled: skip whitespace, try comment elision, then run the
dispatch body.  At fuel zero it returns the end-of-input token with the
state untouched; the public wrapper always passes sufficient fuel. -/
def Lexer.nextTokenF : Nat → Lexer → Except ErrorType Token × Lexer
  | 0, s => (Except.ok Token.EOF, s)
  | n + 1, s =>
    let s0 := s.skip_whitespace
    match Lexer.handleCommentsF n s0 with
    | (some r, s1) => (r, s1)
    | (none, s1) => s1.nextTokenBody

/-- Handles single-line and block comments (`handle_comments`), fuelled for
the recursive re-entry `Some(self.next_token())`.  Returns `none` when no
comment elision applies, or when a block comment was abandoned at the
sentinel (in which case the state mutation persists, as with `&mut self`). -/
def Lexer.handleCommentsF : Nat → Lexer → Option (Except ErrorType Token) × Lexer
  | 0, s => (none, s)
  | n + 1, s =>
    if s.current = '/' then
      if s.peek_char = '/' then
        let s1 := Lexer.skipLineF (s.input.length + 1) s
        let r := Lexer.nextTokenF n s1
        (some r.1, r.2)
      else if s.peek_char = '*' then
        let s1 := s.read_char
        let br := Lexer.blockLoopF (s1.input.length + 1) 1 s1
        if br.1 then
          let r := Lexer.nextTokenF n br.2
          (some r.1, r.2)
        else
          (none, br.2)
      else (none, s)
    else (none, s)

end

namespace Lexer

/-- The `next_token` entry with canonical fuel, always sufficient because
every comment elision advances the position by at least two before
re-entering. -/
def next_token (s : Lexer) : Except ErrorType Token × Lexer :=
  nextTokenF (s.input.length + 2) s

/-- The body of one iteration of the driving `loop` of `lex`, applied to
the result `r` of `next_token`: push an `Ok` token (stopping after the
end-of-input token), or push the error and advance once more to avoid
infinite loops, exactly as lines 86-98 of `core.rs`.  `rest` continues the
loop from a given state. -/
def lexLoopAux (rest : Lexer → List Token × List ErrorType × Lexer)
    (r : Except ErrorType Token × Lexer) :
    List Token × List ErrorType × Lexer :=
  match r.1 with
  | Except.ok t =>
    if t = Token.EOF then ([t], [], r.2)
    else
      let q := rest r.2
      (t :: q.1, q.2.1, q.2.2)
  | Except.error e =>
    let q := rest r.2.read_char
    (q.1, e :: q.2.1, q.2.2)

/-- The driving `loop` of `lex` (lines 84-99 of `core.rs`), fuelled. -/
def lexLoopF : Nat → Lexer → List Token × List ErrorType × Lexer
  | 0, s => ([], [], s)
  | n + 1, s => lexLoopAux (lexLoopF n) s.next_token

/-- The loop of `lex` run from the initial state (position `0`), with the
final lexer state exposed.  The fuel `input.length + 2` suffices because
every iteration strictly increases the position and the loop stops at the
first end-of-input token. -/
def lexRun (input : List Char) : List Token × List ErrorType × Lexer :=
  lexLoopF (input.length + 2) ⟨input, 0⟩

/-- Lexically analyzes the given input (`Lexer::lex`).  The Rust function
first executes `lexer.current = lexer.input[0]`, which on empty input is an
out-of-bounds `Vec` index and panics: that panic is modelled as `none`.
Otherwise the loop runs, and the result is the token list when no error was
accumulated, else the full error list. -/
def lex (input : List Char) : Option (Except (List ErrorType) (List Token)) :=
  if input = [] then none
  else
    let r := lexRun input
    some (if r.2.1 = [] then Except.ok r.1 else Except.error r.2.1)

end Lexer

/-! Basic facts about the cursor primitives. -/

namespace Lexer

theorem read_char_input (s : Lexer) : s.read_char.input = s.input := rfl

theorem read_char_position (s : Lexer) :
    s.read_char.position = s.position + 1 := rfl

theorem current_of_ge {s : Lexer} (h : s.input.length ≤ s.position) :
    s.current = '@' := by
  unfold current
  rw [dif_neg (by omega)]

theorem lt_of_current_ne {s : Lexer} (h : s.current ≠ '@') :
    s.position < s.input.length := by
  by_contra hc
  exact h (current_of_ge (by omega))

theorem peek_of_ge {s : Lexer} (h : s.input.length ≤ s.position + 1) :
    s.peek_char = '@' := by
  unfold peek_char
  rw [dif_neg (by omega)]

theorem lt_of_peek_ne {s : Lexer} (h : s.peek_char ≠ '@') :
    s.position + 1 < s.input.length := by
  by_contra hc
  exact h (peek_of_ge (by omega))

/-! Input preservation, monotonicity and in-bounds preservation for the
fuelled loops. -/

theorem skipWsF_input : ∀ (n : Nat) (s : Lexer), (skipWsF n s).input = s.input
  | 0, s => rfl
  | n + 1, s => by
    unfold skipWsF
    split
    · exact skipWsF_input n s.read_char
    · rfl

theorem skipWsF_mono : ∀ (n : Nat) (s : Lexer),
    s.position ≤ (skipWsF n s).position
  | 0, s => Nat.le_refl _
  | n + 1, s => by
    unfold skipWsF
    split
    · exact Nat.le_trans (Nat.le_succ _) (skipWsF_mono n s.read_char)
    · exact Nat.le_refl _

theorem skipWsF_le : ∀ (n : Nat) (s : Lexer),
    s.position ≤ s.input.length → (skipWsF n s).position ≤ s.input.length
  | 0, _, h => h
  | n + 1, s, h => by
    unfold skipWsF
    split
    · next hw =>
      have hlt : s.position < s.input.length := by
        refine lt_of_current_ne fun he => ?_
        rw [he] at hw
        exact absurd hw (by decide)
      exact skipWsF_le n s.read_char (by simpa using hlt)
    · exact h

theorem skip_whitespace_input (s : Lexer) :
    s.skip_whitespace.input = s.input := skipWsF_input _ s

theorem skip_whitespace_mono (s : Lexer) :
    s.position ≤ s.skip_whitespace.position := skipWsF_mono _ s

theorem skip_whitespace_le {s : Lexer} (h : s.position ≤ s.input.length) :
    s.skip_whitespace.position ≤ s.input.length := skipWsF_le _ s h

theorem skip_whitespace_eq_self {s : Lexer}
    (h : rustIsWhitespace s.current = false) : s.skip_whitespace = s := by
  unfold skip_whitespace skipWsF
  simp [h]

theorem skipLineF_input : ∀ (n : Nat) (s : Lexer),
    (skipLineF n s).input = s.input
  | 0, s => rfl
  | n + 1, s => by
    unfold skipLineF
    split
    · exact skipLineF_input n s.read_char
    · rfl

theorem skipLineF_mono : ∀ (n : Nat) (s : Lexer),
    s.position ≤ (skipLineF n s).position
  | 0, s => Nat.le_refl _
  | n + 1, s => by
    unfold skipLineF
    split
    · exact Nat.le_trans (Nat.le_succ _) (skipLineF_mono n s.read_char)
    · exact Nat.le_refl _

theorem skipLineF_le : ∀ (n : Nat) (s : Lexer),
    s.position ≤ s.input.length → (skipLineF n s).position ≤ s.input.length
  | 0, _, h => h
  | n + 1, s, h => by
    unfold skipLineF
    split
    · next hc =>
      have hlt : s.position < s.input.length := lt_of_current_ne hc.2
      exact skipLineF_le n s.read_char (by simpa using hlt)
    · exact h

theorem blockLoopF_input : ∀ (n level : Nat) (s : Lexer),
    (blockLoopF n level s).2.input = s.input
  | 0, _, s => rfl
  | n + 1, level, s => by
    unfold blockLoopF
    split
    · split
      · rfl
      · exact blockLoopF_input n _ _
    · split
      · exact blockLoopF_input n _ _
      · split
        · rfl
        · exact blockLoopF_input n _ _

theorem blockLoopF_mono : ∀ (n level : Nat) (s : Lexer),
    s.position ≤ (blockLoopF n level s).2.position
  | 0, _, s => Nat.le_refl _
  | n + 1, level, s => by
    unfold blockLoopF
    split
    · split
      · simp [read_char]
        omega
      · have := blockLoopF_mono n (level - 1) s.read_char.read_char
        simp [read_char] at this ⊢
        omega
    · split
      · have := blockLoopF_mono n (level + 1) s.read_char.read_char
        simp [read_char] at this ⊢
        omega
      · split
        · exact Nat.le_refl _
        · have := blockLoopF_mono n level s.read_char
          simp [read_char] at this ⊢
          omega

theorem blockLoopF_le : ∀ (n level : Nat) (s : Lexer),
    s.position ≤ s.input.length →
    (blockLoopF n level s).2.position ≤ s.input.length
  | 0, _, _, h => h
  | n + 1, level, s, h => by
    unfold blockLoopF
    split
    · next hc =>
      have hlt : s.position + 1 < s.input.length :=
        lt_of_peek_ne (by rw [hc.2]; decide)
      split
      · simp [read_char]
        omega
      · exact blockLoopF_le n _ _ (by simp [read_char]; omega)
    · split
      · next hc =>
        have hlt : s.position + 1 < s.input.length :=
          lt_of_peek_ne (by rw [hc.2]; decide)
        exact blockLoopF_le n _ _ (by simp [read_char]; omega)
      · split
        · exact h
        · next hne =>
          have hlt : s.position < s.input.length := lt_of_current_ne hne
          exact blockLoopF_le n _ _ (by simp [read_char]; omega)

theorem identLoopF_input : ∀ (n : Nat) (s : Lexer) (acc : List Char),
    (identLoopF n s acc).2.input = s.input
  | 0, _, _ => rfl
  | n + 1, s, acc => by
    unfold identLoopF
    split
    · exact identLoopF_input n _ _
    · rfl

theorem identLoopF_mono : ∀ (n : Nat) (s : Lexer) (acc : List Char),
    s.position ≤ (identLoopF n s acc).2.position
  | 0, _, _ => Nat.le_refl _
  | n + 1, s, acc => by
    unfold identLoopF
    split
    · have := identLoopF_mono n s.read_char (acc ++ [s.peek_char])
      simp [read_char] at this ⊢
      omega
    · exact Nat.le_refl _

theorem identLoopF_le : ∀ (n : Nat) (s : Lexer) (acc : List Char),
    s.position ≤ s.input.length →
    (identLoopF n s acc).2.position ≤ s.input.length
  | 0, _, _, h => h
  | n + 1, s, acc, h => by
    unfold identLoopF
    split
    · next hc =>
      have hlt : s.position + 1 < s.input.length := by
        refine lt_of_peek_ne fun he => ?_
        rw [he] at hc
        exact absurd hc (by decide)
      exact identLoopF_le n _ _ (by simp [read_char]; omega)
    · exact h

theorem numLoopF_input : ∀ (n : Nat) (s : Lexer) (acc : List Char),
    (numLoopF n s acc).2.input = s.input
  | 0, _, _ => rfl
  | n + 1, s, acc => by
    unfold numLoopF
    split
    · exact numLoopF_input n _ _
    · rfl

theorem numLoopF_mono : ∀ (n : Nat) (s : Lexer) (acc : List Char),
    s.position ≤ (numLoopF n s acc).2.position
  | 0, _, _ => Nat.le_refl _
  | n + 1, s, acc => by
    unfold numLoopF
    split
    · have := numLoopF_mono n s.read_char (acc ++ [s.peek_char])
      simp [read_char] at this ⊢
      omega
    · exact Nat.le_refl _

theorem numLoopF_le : ∀ (n : Nat) (s : Lexer) (acc : List Char),
    s.position ≤ s.input.length →
    (numLoopF n s acc).2.position ≤ s.input.length
  | 0, _, _, h => h
  | n + 1, s, acc, h => by
    unfold numLoopF
    split
    · next hc =>
      have hlt : s.position + 1 < s.input.length := by
        refine lt_of_peek_ne fun he => ?_
        rw [he] at hc
        exact absurd hc (by decide)
      exact numLoopF_le n _ _ (by simp [read_char]; omega)
    · exact h

end Lexer

/-! Facts about the sub-scanners: where they leave the cursor and the shape
of their results. -/

namespace Lexer

theorem boolean_comparison_state (s : Lexer) :
    (boolean_comparison s).2 = s ∨
    ((boolean_comparison s).2 = s.read_char ∧ s.peek_char ≠ '@') := by
  unfold boolean_comparison
  repeat' split
  all_goals
    first
      | exact Or.inl rfl
      | (rename_i hp; exact Or.inr ⟨rfl, by rw [hp]; decide⟩)

theorem boolean_comparison_err {s : Lexer} {e : ErrorType}
    (h : (boolean_comparison s).1 = Except.error e) :
    (boolean_comparison s).2 = s := by
  revert h
  unfold boolean_comparison
  repeat' split
  all_goals simp

theorem handle_plus_state (s : Lexer) :
    (handle_plus s).2 = s ∨
    ((handle_plus s).2 = s.read_char ∧ s.peek_char ≠ '@') := by
  unfold handle_plus
  split
  · rename_i hp
    exact Or.inr ⟨rfl, by rw [hp]; decide⟩
  · exact Or.inl rfl

theorem handle_plus_ok (s : Lexer) : ∃ t, (handle_plus s).1 = Except.ok t := by
  unfold handle_plus
  split <;> exact ⟨_, rfl⟩

theorem handle_minus_state (s : Lexer) :
    (handle_minus s).2 = s ∨
    ((handle_minus s).2 = s.read_char ∧ s.peek_char ≠ '@') := by
  unfold handle_minus
  repeat' split
  all_goals
    first
      | exact Or.inl rfl
      | (rename_i hp; exact Or.inr ⟨rfl, by rw [hp]; decide⟩)

theorem handle_minus_ok (s : Lexer) :
    ∃ t, (handle_minus s).1 = Except.ok t := by
  unfold handle_minus
  repeat' split
  all_goals exact ⟨_, rfl⟩

theorem handle_ampersand_state (s : Lexer) :
    (handle_ampersand s).2 = s ∨
    ((handle_ampersand s).2 = s.read_char ∧ s.peek_char ≠ '@') := by
  unfold handle_ampersand
  split
  · rename_i hp
    exact Or.inr ⟨rfl, by rw [hp]; decide⟩
  · exact Or.inl rfl

theorem handle_ampersand_ok (s : Lexer) :
    ∃ t, (handle_ampersand s).1 = Except.ok t := by
  unfold handle_ampersand
  split <;> exact ⟨_, rfl⟩

theorem handle_pipe_state (s : Lexer) :
    (handle_pipe s).2 = s ∨
    ((handle_pipe s).2 = s.read_char ∧ s.peek_char ≠ '@') := by
  unfold handle_pipe
  split
  · rename_i hp
    exact Or.inr ⟨rfl, by rw [hp]; decide⟩
  · exact Or.inl rfl

theorem handle_pipe_ok (s : Lexer) :
    ∃ t, (handle_pipe s).1 = Except.ok t := by
  unfold handle_pipe
  split <;> exact ⟨_, rfl⟩

theorem handle_keywords_state (s : Lexer) :
    (handle_keywords_and_identifiers s).2 =
      (identLoopF (s.input.length + 1) s [s.current]).2 := by
  simp only [handle_keywords_and_identifiers]
  split <;> rfl

theorem handle_keywords_ok (s : Lexer) :
    ∃ t, (handle_keywords_and_identifiers s).1 = Except.ok t := by
  simp only [handle_keywords_and_identifiers]
  split <;> exact ⟨_, rfl⟩

theorem numbers_state (s : Lexer) :
    (numbers s).2 = s ∨
    (numbers s).2 = (numLoopF (s.input.length + 1) s [s.current]).2 := by
  simp only [numbers]
  split
  · exact Or.inl rfl
  · exact Or.inr rfl

theorem numbers_err {s : Lexer} {e : ErrorType}
    (h : (numbers s).1 = Except.error e) : (numbers s).2 = s := by
  revert h
  simp only [numbers]
  split
  · intro _
    rfl
  · simp

end Lexer

/-! Character-class helpers: the classes that the dispatch tests exclude the
sentinel character. -/

theorem digit_ne_sentinel {c : Char} (h : isDigitChar c = true) : c ≠ '@' := by
  intro he
  rw [he] at h
  exact absurd h (by decide)

theorem letter_ne_sentinel {c : Char}
    (h : isLetterOrUnderscoreChar c = true) : c ≠ '@' := by
  intro he
  rw [he] at h
  exact absurd h (by decide)

theorem sym_ne_sentinel {c : Char} (h : isSingleCharSym c = true) :
    c ≠ '@' := by
  intro he
  rw [he] at h
  exact absurd h (by decide)

namespace Lexer

theorem nextTokenBody_input (s : Lexer) : s.nextTokenBody.2.input = s.input := by
  simp only [nextTokenBody]
  repeat' split
  all_goals simp only [read_char_input]
  all_goals
    first
      | rfl
      | (rcases boolean_comparison_state s with hb | ⟨hb, _⟩ <;> rw [hb] <;>
          simp [read_char_input])
      | (rcases numbers_state s with hb | hb <;> rw [hb] <;>
          simp [read_char_input, numLoopF_input])
      | (rw [handle_keywords_state] <;>
          simp [read_char_input, identLoopF_input])
      | (rcases handle_plus_state s with hb | ⟨hb, _⟩ <;> rw [hb] <;>
          simp [read_char_input])
      | (rcases handle_minus_state s with hb | ⟨hb, _⟩ <;> rw [hb] <;>
          simp [read_char_input])
      | (rcases handle_ampersand_state s with hb | ⟨hb, _⟩ <;> rw [hb] <;>
          simp [read_char_input])
      | (rcases handle_pipe_state s with hb | ⟨hb, _⟩ <;> rw [hb] <;>
          simp [read_char_input])

end Lexer

namespace Lexer

theorem nextTokenBody_mono (s : Lexer) :
    s.position ≤ s.nextTokenBody.2.position := by
  simp only [nextTokenBody]
  repeat' split
  all_goals dsimp only
  all_goals
    first
      | (simp only [read_char]; omega)
      | (rcases boolean_comparison_state s with hb | ⟨hb, _⟩ <;> rw [hb] <;>
          (try simp only [read_char]) <;> omega)
      | (rcases numbers_state s with hb | hb <;> rw [hb] <;>
          (try simp only [read_char]) <;>
          first
            | omega
            | (have hx9 := numLoopF_mono (s.input.length + 1) s [s.current]
               omega))
      | (rw [handle_keywords_state]
         simp only [read_char]
         have := identLoopF_mono (s.input.length + 1) s [s.current]
         omega)
      | (rcases handle_plus_state s with hb | ⟨hb, _⟩ <;> rw [hb] <;>
          (try simp only [read_char]) <;> omega)
      | (rcases handle_minus_state s with hb | ⟨hb, _⟩ <;> rw [hb] <;>
          (try simp only [read_char]) <;> omega)
      | (rcases handle_ampersand_state s with hb | ⟨hb, _⟩ <;> rw [hb] <;>
          (try simp only [read_char]) <;> omega)
      | (rcases handle_pipe_state s with hb | ⟨hb, _⟩ <;> rw [hb] <;>
          (try simp only [read_char]) <;> omega)

theorem nextTokenBody_bound {s : Lexer} (h : s.position ≤ s.input.length) :
    s.nextTokenBody.2.position ≤ s.input.length + 1 := by
  simp only [nextTokenBody]
  repeat' split
  all_goals dsimp only
  all_goals
    first
      | (simp only [read_char]; omega)
      | (rcases boolean_comparison_state s with hb | ⟨hb, hp⟩ <;> rw [hb] <;>
          (try simp only [read_char]) <;>
          first
            | omega
            | (have hx9 := lt_of_peek_ne hp; omega))
      | (rcases numbers_state s with hb | hb <;> rw [hb] <;>
          (try simp only [read_char]) <;>
          first
            | omega
            | (have hx9 := numLoopF_le (s.input.length + 1) s [s.current] h
               omega))
      | (rw [handle_keywords_state]
         simp only [read_char]
         have := identLoopF_le (s.input.length + 1) s [s.current] h
         omega)
      | (rcases handle_plus_state s with hb | ⟨hb, hp⟩ <;> rw [hb] <;>
          (try simp only [read_char]) <;>
          first
            | omega
            | (have hx9 := lt_of_peek_ne hp; omega))
      | (rcases handle_minus_state s with hb | ⟨hb, hp⟩ <;> rw [hb] <;>
          (try simp only [read_char]) <;>
          first
            | omega
            | (have hx9 := lt_of_peek_ne hp; omega))
      | (rcases handle_ampersand_state s with hb | ⟨hb, hp⟩ <;> rw [hb] <;>
          (try simp only [read_char]) <;>
          first
            | omega
            | (have hx9 := lt_of_peek_ne hp; omega))
      | (rcases handle_pipe_state s with hb | ⟨hb, hp⟩ <;> rw [hb] <;>
          (try simp only [read_char]) <;>
          first
            | omega
            | (have hx9 := lt_of_peek_ne hp; omega))

theorem nextTokenBody_err {s : Lexer} (h : s.position ≤ s.input.length)
    {e : ErrorType} (he : s.nextTokenBody.1 = Except.error e) :
    s.nextTokenBody.2.position ≤ s.input.length := by
  revert he
  simp only [nextTokenBody]
  repeat' split
  all_goals intro he
  all_goals
    first
      | (simp at he; done)
      | (obtain ⟨t, ht⟩ := handle_keywords_ok s; rw [ht] at he; simp at he;
         done)
      | (obtain ⟨t, ht⟩ := handle_plus_ok s; rw [ht] at he; simp at he; done)
      | (obtain ⟨t, ht⟩ := handle_minus_ok s; rw [ht] at he; simp at he; done)
      | (obtain ⟨t, ht⟩ := handle_ampersand_ok s; rw [ht] at he; simp at he;
         done)
      | (obtain ⟨t, ht⟩ := handle_pipe_ok s; rw [ht] at he; simp at he; done)
      | (have h2 := boolean_comparison_err he
         rw [h2]
         rename_i hg
         have h3 : s.current ≠ '@' := by
           rcases hg with h4 | h4 | h4 | h4 <;> rw [h4] <;> decide
         have := lt_of_current_ne h3
         simp only [read_char]
         omega)
      | (have h2 := numbers_err he
         rw [h2]
         rename_i hd
         have := lt_of_current_ne (digit_ne_sentinel hd)
         simp only [read_char]
         omega)
      | (rename_i hsym
         have := lt_of_current_ne (sym_ne_sentinel hsym)
         simp only [read_char]
         omega)
      | (have hx9 := lt_of_current_ne (show s.current ≠ '@' by assumption)
         simp only [read_char]
         omega)
      | (simp only [read_char]; omega)

end Lexer

namespace Lexer

/-- Joint facts about `nextTokenF` and `handleCommentsF`, proved by one
induction on the fuel: the input is never modified, the position never
decreases, and starting in bounds the position ends at most one past the
end (exactly at most the length for an error result, or when comment
handling falls through with `none`). -/
theorem nt_hc_facts : ∀ n : Nat,
    (∀ s : Lexer, (nextTokenF n s).2.input = s.input ∧
       s.position ≤ (nextTokenF n s).2.position ∧
       (s.position ≤ s.input.length →
         (nextTokenF n s).2.position ≤ s.input.length + 1 ∧
         (∀ e, (nextTokenF n s).1 = Except.error e →
           (nextTokenF n s).2.position ≤ s.input.length))) ∧
    (∀ s : Lexer, (handleCommentsF n s).2.input = s.input ∧
       s.position ≤ (handleCommentsF n s).2.position ∧
       (s.position ≤ s.input.length →
         (handleCommentsF n s).2.position ≤ s.input.length + 1 ∧
         ((handleCommentsF n s).1 = none →
           (handleCommentsF n s).2.position ≤ s.input.length) ∧
         (∀ e, (handleCommentsF n s).1 = some (Except.error e) →
           (handleCommentsF n s).2.position ≤ s.input.length))) := by
  intro n
  induction n with
  | zero =>
    constructor
    · intro s
      exact ⟨rfl, Nat.le_refl _, fun h =>
        ⟨Nat.le_succ_of_le h, fun e he => by simp [nextTokenF] at he⟩⟩
    · intro s
      exact ⟨rfl, Nat.le_refl _, fun h =>
        ⟨Nat.le_succ_of_le h, fun _ => h,
         fun e he => by simp [handleCommentsF] at he⟩⟩
  | succ n ih =>
    obtain ⟨ihNT, ihHC⟩ := ih
    constructor
    · intro s
      have hwsI : s.skip_whitespace.input = s.input := skip_whitespace_input s
      have hwsM := skip_whitespace_mono s
      rcases hh : handleCommentsF n s.skip_whitespace with ⟨o, s1⟩
      have hcFacts := ihHC s.skip_whitespace
      rw [hh] at hcFacts
      dsimp only at hcFacts
      obtain ⟨hI, hM, hB⟩ := hcFacts
      simp only [nextTokenF]
      rw [hh]
      cases o with
      | some r =>
        try dsimp only
        refine ⟨by rw [hI, hwsI], Nat.le_trans hwsM hM, fun h => ?_⟩
        have h0 : s.skip_whitespace.position ≤ s.skip_whitespace.input.length := by
          rw [hwsI]
          exact skip_whitespace_le h
        obtain ⟨hB1, _, hB3⟩ := hB h0
        constructor
        · rw [hwsI] at hB1
          exact hB1
        · intro e he
          have h2 := hB3 e (by rw [he])
          rw [hwsI] at h2
          exact h2
      | none =>
        try dsimp only
        have hI2 : s1.input = s.input := by rw [hI, hwsI]
        refine ⟨by rw [nextTokenBody_input, hI2], ?_, fun h => ?_⟩
        · exact Nat.le_trans hwsM (Nat.le_trans hM (nextTokenBody_mono s1))
        · have h0 : s.skip_whitespace.position ≤ s.skip_whitespace.input.length := by
            rw [hwsI]
            exact skip_whitespace_le h
          obtain ⟨_, hB2, _⟩ := hB h0
          have h1 : s1.position ≤ s1.input.length := by
            rw [hI2]
            have := hB2 rfl
            rw [hwsI] at this
            exact this
          constructor
          · have := nextTokenBody_bound h1
            rw [hI2] at this
            exact this
          · intro e he
            have := nextTokenBody_err h1 he
            rw [hI2] at this
            exact this
    · intro s
      simp only [handleCommentsF]
      by_cases hc1 : s.current = '/'
      · rw [if_pos hc1]
        by_cases hp1 : s.peek_char = '/'
        · rw [if_pos hp1]
          try dsimp only
          have hslI : (skipLineF (s.input.length + 1) s).input = s.input :=
            skipLineF_input _ s
          have hslM := skipLineF_mono (s.input.length + 1) s
          obtain ⟨nI, nM, nB⟩ := ihNT (skipLineF (s.input.length + 1) s)
          refine ⟨by rw [nI, hslI], Nat.le_trans hslM nM, fun h => ?_⟩
          have h1 : (skipLineF (s.input.length + 1) s).position ≤
              (skipLineF (s.input.length + 1) s).input.length := by
            rw [hslI]
            exact skipLineF_le _ s h
          obtain ⟨nB1, nB2⟩ := nB h1
          rw [hslI] at nB1
          refine ⟨nB1, fun he => by simp at he, fun e he => ?_⟩
          have h2 := nB2 e (Option.some.inj he)
          rw [hslI] at h2
          exact h2
        · rw [if_neg hp1]
          by_cases hp2 : s.peek_char = '*'
          · rw [if_pos hp2]
            try dsimp only
            have hcur : s.position < s.input.length :=
              lt_of_current_ne (by rw [hc1]; decide)
            have hbrI : (blockLoopF (s.read_char.input.length + 1) 1
                s.read_char).2.input = s.input :=
              blockLoopF_input _ _ s.read_char
            have hbrM := blockLoopF_mono (s.read_char.input.length + 1) 1
              s.read_char
            by_cases hbl : (blockLoopF (s.read_char.input.length + 1) 1
                s.read_char).1 = true
            · rw [if_pos hbl]
              try dsimp only
              obtain ⟨nI, nM, nB⟩ := ihNT (blockLoopF
                (s.read_char.input.length + 1) 1 s.read_char).2
              refine ⟨by rw [nI, hbrI], ?_, fun h => ?_⟩
              · refine Nat.le_trans ?_ (Nat.le_trans hbrM nM)
                simp [read_char]
              · have h1 : (blockLoopF (s.read_char.input.length + 1) 1
                    s.read_char).2.position ≤
                    (blockLoopF (s.read_char.input.length + 1) 1
                      s.read_char).2.input.length := by
                  rw [hbrI]
                  exact blockLoopF_le _ 1 s.read_char
                    (by simp [read_char]; omega)
                obtain ⟨nB1, nB2⟩ := nB h1
                rw [hbrI] at nB1
                refine ⟨nB1, fun he => by simp at he, fun e he => ?_⟩
                have h2 := nB2 e (Option.some.inj he)
                rw [hbrI] at h2
                exact h2
            · rw [if_neg hbl]
              try dsimp only
              refine ⟨hbrI, ?_, fun h => ?_⟩
              · refine Nat.le_trans ?_ hbrM
                simp [read_char]
              · have h1 : (blockLoopF (s.read_char.input.length + 1) 1
                    s.read_char).2.position ≤ s.input.length :=
                  blockLoopF_le _ 1 s.read_char (by simp [read_char]; omega)
                exact ⟨by omega, fun _ => h1, fun e he => by simp at he⟩
          · rw [if_neg hp2]
            exact ⟨rfl, Nat.le_refl _, fun h =>
              ⟨Nat.le_succ_of_le h, fun _ => h, fun e he => by simp at he⟩⟩
      · rw [if_neg hc1]
        exact ⟨rfl, Nat.le_refl _, fun h =>
          ⟨Nat.le_succ_of_le h, fun _ => h, fun e he => by simp at he⟩⟩

theorem nextTokenF_input (n : Nat) (s : Lexer) :
    (nextTokenF n s).2.input = s.input := ((nt_hc_facts n).1 s).1

theorem nextTokenF_mono (n : Nat) (s : Lexer) :
    s.position ≤ (nextTokenF n s).2.position := ((nt_hc_facts n).1 s).2.1

theorem nextTokenF_bound (n : Nat) {s : Lexer}
    (h : s.position ≤ s.input.length) :
    (nextTokenF n s).2.position ≤ s.input.length + 1 :=
  (((nt_hc_facts n).1 s).2.2 h).1

theorem nextTokenF_err (n : Nat) {s : Lexer}
    (h : s.position ≤ s.input.length) {e : ErrorType}
    (he : (nextTokenF n s).1 = Except.error e) :
    (nextTokenF n s).2.position ≤ s.input.length :=
  (((nt_hc_facts n).1 s).2.2 h).2 e he

end Lexer

namespace Lexer

/-- Comment handling falls straight through when the current character is
not a slash. -/
theorem handleCommentsF_noop {s : Lexer} (h : s.current ≠ '/') :
    ∀ n : Nat, handleCommentsF n s = (none, s)
  | 0 => rfl
  | n + 1 => by
    simp only [handleCommentsF]
    rw [if_neg h]

/-- When the current character is neither whitespace nor a slash,
`next_token` is exactly the dispatch body. -/
theorem nextTokenF_plain {s : Lexer} (hw : rustIsWhitespace s.current = false)
    (hs : s.current ≠ '/') (n : Nat) :
    nextTokenF (n + 1) s = s.nextTokenBody := by
  simp only [nextTokenF]
  rw [skip_whitespace_eq_self hw, handleCommentsF_noop hs n]

/-- At or past the end of input the dispatch sees the sentinel, the position
check confirms true end-of-input, and the end-of-input token is produced
(with the trailing advance). -/
theorem nextTokenF_eof {s : Lexer} (h : s.input.length ≤ s.position)
    (n : Nat) : nextTokenF (n + 1) s = (Except.ok Token.EOF, s.read_char) := by
  have hcur : s.current = '@' := current_of_ge h
  rw [nextTokenF_plain (by rw [hcur]; decide) (by rw [hcur]; decide) n]
  simp [nextTokenBody, hcur, h]

/-- An unrecognized character reaches the catch-all arm of the dispatch:
`next_token` reports it and advances by exactly one. -/
theorem nextTokenF_unrec {s : Lexer}
    (hu : isUnrecognizedChar s.current = true) (n : Nat) :
    nextTokenF (n + 1) s =
      (Except.error (make_unrecognized_error s.current), s.read_char) := by
  simp [isUnrecognizedChar] at hu
  obtain ⟨h1, hsym⟩ := hu
  obtain ⟨h1, hbar⟩ := h1
  obtain ⟨h1, hamp⟩ := h1
  obtain ⟨h1, hminus⟩ := h1
  obtain ⟨h1, hplus⟩ := h1
  obtain ⟨h1, hlet⟩ := h1
  obtain ⟨h1, hdig⟩ := h1
  obtain ⟨h1, hat⟩ := h1
  obtain ⟨hw, hcmp⟩ := h1
  have hslash : s.current ≠ '/' := fun he => by
    rw [he] at hsym
    exact absurd hsym (by decide)
  rw [nextTokenF_plain hw hslash n]
  obtain ⟨⟨hc1, hc2⟩, hc3⟩ := hcmp
  obtain ⟨hc1, hc4⟩ := hc1
  simp [nextTokenBody, hc1, hc4, hc2, hc3, hat, hdig, hlet, hplus, hminus,
    hamp, hbar, hsym]

end Lexer

namespace Lexer

/-- One iteration of the driving loop on an unrecognized character: the
error is recorded and scanning continues two characters further (one
advance inside `next_token`, one in the loop's error arm). -/
theorem lexLoopF_unrec {s : Lexer}
    (hu : isUnrecognizedChar s.current = true) (m : Nat) :
    lexLoopF (m + 1) s =
      ((lexLoopF m s.read_char.read_char).1,
       make_unrecognized_error s.current ::
         (lexLoopF m s.read_char.read_char).2.1,
       (lexLoopF m s.read_char.read_char).2.2) := by
  have he : s.next_token =
      (Except.error (make_unrecognized_error s.current), s.read_char) := by
    simp only [next_token]
    rw [(rfl : s.input.length + 2 = s.input.length + 1 + 1)]
    exact nextTokenF_unrec hu _
  simp only [lexLoopF]
  rw [he]
  simp only [lexLoopAux]

/-- The driving loop leaves the cursor no further than two positions past
the end of the input. -/
theorem lexLoopF_bound : ∀ (n : Nat) (s : Lexer),
    s.position ≤ s.input.length + 1 →
    (lexLoopF n s).2.2.position ≤ s.input.length + 2
  | 0, s, h => Nat.le_succ_of_le h
  | n + 1, s, h => by
    by_cases hpos : s.input.length ≤ s.position
    · have he : s.next_token = (Except.ok Token.EOF, s.read_char) := by
        simp only [next_token]
        rw [(rfl : s.input.length + 2 = s.input.length + 1 + 1)]
        exact nextTokenF_eof hpos _
      simp only [lexLoopF]
      rw [he]
      simp only [lexLoopAux]
      simp only [if_true, eq_self_iff_true, read_char]
      omega
    · push_neg at hpos
      have hI : s.next_token.2.input = s.input :=
        nextTokenF_input (s.input.length + 2) s
      have hB : s.next_token.2.position ≤ s.input.length + 1 :=
        nextTokenF_bound (s.input.length + 2) (Nat.le_of_lt hpos)
      have hE : ∀ e, s.next_token.1 = Except.error e →
          s.next_token.2.position ≤ s.input.length :=
        fun e he => nextTokenF_err (s.input.length + 2) (Nat.le_of_lt hpos) he
      rcases hr : s.next_token with ⟨o, s2⟩
      rw [hr] at hI hB hE
      dsimp only at hI hB hE
      simp only [lexLoopF]
      rw [hr]
      simp only [lexLoopAux]
      cases o with
      | ok t =>
        dsimp only
        by_cases ht : t = Token.EOF
        · rw [if_pos ht]
          dsimp only
          omega
        · rw [if_neg ht]
          dsimp only
          have := lexLoopF_bound n s2 (by rw [hI]; exact hB)
          rw [hI] at this
          exact this
      | error e =>
        dsimp only
        have h2 := hE e rfl
        have := lexLoopF_bound n s2.read_char
          (by simp only [read_char_input, read_char_position, hI]; omega)
        simp only [read_char_input, hI] at this
        exact this

/-- The loop of `lex`, run from the initial state, leaves the cursor within
two positions past the end. -/
theorem lexRun_bound (input : List Char) :
    (lexRun input).2.2.position ≤ input.length + 2 :=
  lexLoopF_bound _ ⟨input, 0⟩ (Nat.zero_le _)

end Lexer

/-! Character-class separation facts used to drive the dispatch
symbolically. -/

theorem letter_ne {c d : Char} (hl : isLetterOrUnderscoreChar c = true)
    (hd : isLetterOrUnderscoreChar d = false) : c ≠ d := fun he => by
  rw [he, hd] at hl
  cases hl

theorem letter_not_digit {c : Char}
    (hl : isLetterOrUnderscoreChar c = true) : isDigitChar c = false := by
  simp [isLetterOrUnderscoreChar] at hl
  simp [isDigitChar]
  omega

theorem letter_not_ws {c : Char}
    (hl : isLetterOrUnderscoreChar c = true) : rustIsWhitespace c = false := by
  simp [isLetterOrUnderscoreChar] at hl
  simp [rustIsWhitespace]
  omega

theorem letter_not_sym {c : Char}
    (hl : isLetterOrUnderscoreChar c = true) : isSingleCharSym c = false := by
  simp [isLetterOrUnderscoreChar] at hl
  simp [isSingleCharSym]
  repeat' apply And.intro
  all_goals (intro he; rw [he] at hl; revert hl; decide)

namespace Lexer

/-- At or past the end of input the dispatch body produces the end-of-input
token (the position check distinguishing true end-of-input succeeds). -/
theorem nextTokenBody_eof {s : Lexer} (h : s.input.length ≤ s.position) :
    s.nextTokenBody = (Except.ok Token.EOF, s.read_char) := by
  have hcur : s.current = '@' := current_of_ge h
  simp [nextTokenBody, hcur, h]

/-- The identifier-collection loop consumes exactly the maximal run of
identifier-continuation characters after the current one: it returns the
accumulator extended by `takeWhile` of the rest of the input, leaving the
cursor on the last character of the run. -/
theorem identLoopF_spec : ∀ (fuel : Nat) (s : Lexer) (acc : List Char),
    s.input.length - s.position ≤ fuel →
    identLoopF fuel s acc =
      (acc ++ (s.input.drop (s.position + 1)).takeWhile isIdentContChar,
       ⟨s.input, s.position +
         ((s.input.drop (s.position + 1)).takeWhile isIdentContChar).length⟩)
  | 0, s, acc, h => by
    have hd : s.input.drop (s.position + 1) = [] :=
      List.drop_eq_nil_of_le (by omega)
    simp [identLoopF, hd]
  | fuel + 1, s, acc, h => by
    by_cases hpk : s.position + 1 < s.input.length
    · have hd : s.input.drop (s.position + 1) =
          s.input.get ⟨s.position + 1, hpk⟩ :: s.input.drop (s.position + 2) :=
        List.drop_eq_get_cons hpk
      have hpkc : s.peek_char = s.input.get ⟨s.position + 1, hpk⟩ := by
        unfold peek_char
        rw [dif_pos hpk]
      rw [hd, ← hpkc]
      by_cases hic : isIdentContChar s.peek_char = true
      · rw [List.takeWhile_cons_of_pos hic]
        unfold identLoopF
        rw [if_pos hic,
          identLoopF_spec fuel s.read_char (acc ++ [s.peek_char])
            (by simp [read_char]; omega)]
        have hd2 : s.read_char.input.drop (s.read_char.position + 1) =
            s.input.drop (s.position + 2) := rfl
        rw [hd2]
        simp only [read_char, List.append_assoc, List.singleton_append,
          List.length_cons, Prod.mk.injEq, Lexer.mk.injEq]
        exact ⟨trivial, trivial, by omega⟩
      · rw [List.takeWhile_cons_of_neg hic]
        unfold identLoopF
        rw [if_neg hic]
        simp
    · have hd : s.input.drop (s.position + 1) = [] :=
        List.drop_eq_nil_of_le (by omega)
      have hpkc : s.peek_char = '@' := peek_of_ge (by omega)
      unfold identLoopF
      rw [if_neg (by rw [hpkc]; decide), hd]
      simp

/-- The keyword/identifier scanner characterised: it reads the maximal
identifier run starting at the current character, compares the entire run
against the keyword table by exact string equality, and leaves the cursor
on the last character of the run. -/
theorem handle_keywords_spec (s : Lexer) :
    handle_keywords_and_identifiers s =
      ((match keyword_map.find? (fun kv =>
          String.mk (s.current :: (s.input.drop (s.position + 1)).takeWhile
            isIdentContChar) == kv.1) with
        | some kv => Except.ok kv.2
        | none => Except.ok (Token.IDENTIFIER (s.current ::
            (s.input.drop (s.position + 1)).takeWhile isIdentContChar))),
       ⟨s.input, s.position +
         ((s.input.drop (s.position + 1)).takeWhile isIdentContChar).length⟩) := by
  simp only [handle_keywords_and_identifiers]
  rw [identLoopF_spec _ _ _ (by omega)]
  simp only [List.singleton_append]
  cases hf : keyword_map.find? (fun kv =>
      String.mk (s.current :: (s.input.drop (s.position + 1)).takeWhile
        isIdentContChar) == kv.1) with
  | none => rfl
  | some kv => rfl

end Lexer

/-! The claims. -/

/-- C1: the claim says lex("") returns success with exactly one end-of-input
token and no errors, returning immediately rather than failing on an
out-of-bounds read of the initial character.  The shipped `lex` has no empty
-input special case (it survives only in a commented-out version): it
executes `lexer.current = lexer.input[0]`, an out-of-bounds `Vec` index that
panics on empty input, modelled here as `none`.  This theorem evaluates the
code at the failing input: the call panics instead of producing
`Ok([EOF])`. -/
theorem lex_empty_input_panics :
    Lexer.lex [] = none ∧
    Lexer.lex [] ≠ some (Except.ok [Token.EOF]) := by
  exact ⟨rfl, by simp [Lexer.lex]⟩

/-- C2 counterexample: on the input "$#" both characters are unmatched by
the dispatch, yet the error list of the failing result contains only the
first one; the second was skipped, never dispatched, contradicting the
claim that every unmatched character gets one recorded error and that the
cursor advances by exactly one character past an offending character. -/
theorem error_skips_following_char_cx :
    Lexer.lex ['$', '#'] =
      some (Except.error [ErrorType.UnrecognizedToken "$"]) ∧
    ErrorType.UnrecognizedToken "#" ∉ [ErrorType.UnrecognizedToken "$"] := by
  exact ⟨rfl, by simp⟩

/-- C2 amended: when the dispatch reaches an unrecognized character, one
unrecognized-token error carrying that character is recorded, but the
cursor advances by exactly two characters in total (one advance at the end
of `next_token`, a second in the error arm of the driving loop), so the
character immediately following the offending one is skipped and never
dispatched; scanning continues from two positions past the offending
character. -/
theorem unrecognized_char_error_and_double_advance (n m : Nat) (s : Lexer)
    (hu : isUnrecognizedChar s.current = true) :
    Lexer.nextTokenF (n + 1) s =
      (Except.error (Lexer.make_unrecognized_error s.current), s.read_char) ∧
    Lexer.lexLoopF (m + 1) s =
      ((Lexer.lexLoopF m s.read_char.read_char).1,
       Lexer.make_unrecognized_error s.current ::
         (Lexer.lexLoopF m s.read_char.read_char).2.1,
       (Lexer.lexLoopF m s.read_char.read_char).2.2) :=
  ⟨Lexer.nextTokenF_unrec hu n, Lexer.lexLoopF_unrec hu m⟩

/-- C2 amended, witness at the one-character input "$". -/
theorem unrecognized_char_error_and_double_advance_witness :
    Lexer.nextTokenF 1 ⟨['$'], 0⟩ =
      (Except.error (ErrorType.UnrecognizedToken "$"), ⟨['$'], 1⟩) ∧
    Lexer.lexLoopF 1 ⟨['$'], 0⟩ =
      ([], [ErrorType.UnrecognizedToken "$"], ⟨['$'], 2⟩) :=
  unrecognized_char_error_and_double_advance 0 0 ⟨['$'], 0⟩ (by decide)

/-- C3 counterexample: a literal `'@'` inside a block comment is treated by
the elision loop as end-of-input by its value alone: elision is abandoned,
the `'@'` is then reported as an unrecognized character, and
`lex("/*@*/x")` fails instead of eliding the comment and producing the
identifier `x`. -/
theorem literal_sentinel_in_comment_cx :
    Lexer.lex "/*@*/x".toList =
      some (Except.error [ErrorType.UnrecognizedToken "@"]) ∧
    (some (Except.error [ErrorType.UnrecognizedToken "@"]) :
        Option (Except (List ErrorType) (List Token))) ≠
      some (Except.ok [Token.IDENTIFIER ['x'], Token.EOF]) := by
  exact ⟨rfl, by simp⟩

/-- C3 amended: the token dispatch of `next_token` does disambiguate the
sentinel by the cursor position — at or past the end of input it produces
the end-of-input token, while a literal `'@'` inside the input is reported
as an unrecognized character — but comment elision stops at any `'@'` by
its character value alone, so the claim's elision half fails (see the
counterexample). -/
theorem sentinel_dispatch_by_position :
    (∀ (n : Nat) (s : Lexer), s.input.length ≤ s.position →
      Lexer.nextTokenF (n + 1) s = (Except.ok Token.EOF, s.read_char)) ∧
    (∀ (n : Nat) (s : Lexer), s.position < s.input.length →
      s.current = '@' →
      Lexer.nextTokenF (n + 1) s =
        (Except.error (Lexer.make_unrecognized_error '@'), s.read_char)) := by
  constructor
  · intro n s h
    exact Lexer.nextTokenF_eof h n
  · intro n s h hc
    have hw : rustIsWhitespace s.current = false := by rw [hc]; decide
    have hs : s.current ≠ '/' := by rw [hc]; decide
    rw [Lexer.nextTokenF_plain hw hs n]
    have h2 : ¬(s.input.length ≤ s.position) := by omega
    simp [Lexer.nextTokenBody, hc, h2]

/-- C3 amended, witness: true end-of-input on "a" at position 1, and a
literal `'@'` in the input at position 0. -/
theorem sentinel_dispatch_by_position_witness :
    Lexer.nextTokenF 1 ⟨['a'], 1⟩ = (Except.ok Token.EOF, ⟨['a'], 2⟩) ∧
    Lexer.nextTokenF 1 ⟨['@'], 0⟩ =
      (Except.error (Lexer.make_unrecognized_error '@'), ⟨['@'], 1⟩) :=
  ⟨sentinel_dispatch_by_position.1 0 ⟨['a'], 1⟩ (by decide),
   sentinel_dispatch_by_position.2 0 ⟨['@'], 0⟩ (by decide) (by decide)⟩

/-- C4 counterexample: lexing the one-character input "a" ends with the
cursor at position 2, strictly greater than the input length 1 (the
end-of-input token's trailing advance pushes the cursor past the end), so
the cursor does not stay within [0, length]. -/
theorem cursor_exceeds_input_length_cx :
    (Lexer.lexRun ['a']).2.2.position = 2 ∧
    ¬((Lexer.lexRun ['a']).2.2.position ≤ (['a'] : List Char).length) := by
  exact ⟨rfl, by decide⟩

/-- C4 amended: the cursor never moves backwards during `next_token`, and a
whole `lex` run ends with the cursor at most two positions past the input
length (length + 1 after the end-of-input token's trailing advance, and up
to length + 2 when the last character produced an error); since the cursor
only ever moves forward one step at a time, every intermediate position
also lies within [0, length + 2]. -/
theorem cursor_bounded_by_length_plus_two :
    (∀ input : List Char,
      (Lexer.lexRun input).2.2.position ≤ input.length + 2) ∧
    (∀ (n : Nat) (s : Lexer),
      s.position ≤ (Lexer.nextTokenF n s).2.position) :=
  ⟨fun input => Lexer.lexRun_bound input,
   fun n s => Lexer.nextTokenF_mono n s⟩

/-- C5: two distinct unrecognized characters separated by a valid token
produce a failure whose error list is exactly those two characters in
encounter order; in general `lex` succeeds exactly when the loop
accumulated no errors, and otherwise fails with the full ordered error
list, discarding the tokens produced en route. -/
theorem error_accumulation_order :
    Lexer.lex "$ x #".toList =
      some (Except.error [ErrorType.UnrecognizedToken "$",
        ErrorType.UnrecognizedToken "#"]) ∧
    (∀ input : List Char, input ≠ [] →
      ((Lexer.lexRun input).2.1 = [] →
        Lexer.lex input = some (Except.ok (Lexer.lexRun input).1)) ∧
      ((Lexer.lexRun input).2.1 ≠ [] →
        Lexer.lex input = some (Except.error (Lexer.lexRun input).2.1))) := by
  refine ⟨by rfl, fun input h => ?_⟩
  constructor <;> intro h2 <;> simp [Lexer.lex, h, h2]

/-- C5 witness: the success case at the input "a" with no errors. -/
theorem error_accumulation_order_witness :
    Lexer.lex ['a'] = some (Except.ok (Lexer.lexRun ['a']).1) :=
  (error_accumulation_order.2 ['a'] (by decide)).1 (by rfl)

/-- C6: greedy longest match with one character of lookahead: whenever the
current character is `<` and the peeked character is `=`, `next_token`
returns the single less-than-or-equal token and the cursor advances exactly
twice (once in `boolean_comparison`, once in the dispatch), so the
following dispatch resumes immediately after the full lexeme; `"<="` lexes
as one token, never as less-than followed by equal. -/
theorem less_equal_greedy_match :
    (∀ (n : Nat) (s : Lexer), s.current = '<' → s.peek_char = '=' →
      Lexer.nextTokenF (n + 1) s =
        (Except.ok Token.LESSTHANEQUAL, s.read_char.read_char)) ∧
    Lexer.lex "<=".toList =
      some (Except.ok [Token.LESSTHANEQUAL, Token.EOF]) ∧
    Lexer.lex "a<=b".toList =
      some (Except.ok [Token.IDENTIFIER ['a'], Token.LESSTHANEQUAL,
        Token.IDENTIFIER ['b'], Token.EOF]) := by
  refine ⟨fun n s hc hp => ?_, by rfl, by rfl⟩
  have hw : rustIsWhitespace s.current = false := by rw [hc]; decide
  have hs : s.current ≠ '/' := by rw [hc]; decide
  rw [Lexer.nextTokenF_plain hw hs n]
  simp [Lexer.nextTokenBody, Lexer.boolean_comparison, hc, hp]

/-- C6 witness at the two-character input. -/
theorem less_equal_greedy_match_witness :
    Lexer.nextTokenF 1 ⟨['<', '='], 0⟩ =
      (Except.ok Token.LESSTHANEQUAL, ⟨['<', '='], 2⟩) :=
  less_equal_greedy_match.1 0 ⟨['<', '='], 0⟩ (by decide) (by decide)

/-- C7: the well-nested input lexes to exactly one end-of-input token with
zero errors: the nesting counter of `blockLoopF` starts at 1, is
incremented at each fresh opener and decremented at each closer, and
elision ends exactly when it reaches zero, so nothing of the comment
surfaces. -/
theorem nested_block_comment_elision :
    Lexer.lex "/* a /* b */ c */".toList =
      some (Except.ok [Token.EOF]) := by rfl

/-- C8: when the block-comment loop is abandoned (`false`) with the cursor
at or past the end of input — an unterminated block comment at true
end-of-input — `next_token` resumes dispatch at the sentinel and produces
the end-of-input token with no diagnostic; at the `lex` level an input with
an unterminated comment succeeds with the tokens before the comment
followed by the end-of-input token, exactly as if the comment had been
closed. -/
theorem unterminated_block_comment_silent_eof :
    (∀ (n : Nat) (s : Lexer), s.current = '/' → s.peek_char = '*' →
      (Lexer.blockLoopF (s.input.length + 1) 1 s.read_char).1 = false →
      s.input.length ≤
        (Lexer.blockLoopF (s.input.length + 1) 1 s.read_char).2.position →
      Lexer.nextTokenF (n + 1 + 1) s =
        (Except.ok Token.EOF,
         (Lexer.blockLoopF (s.input.length + 1) 1 s.read_char).2.read_char)) ∧
    Lexer.lex "a /* b".toList =
      some (Except.ok [Token.IDENTIFIER ['a'], Token.EOF]) ∧
    Lexer.lex "a ".toList =
      some (Except.ok [Token.IDENTIFIER ['a'], Token.EOF]) := by
  refine ⟨fun n s hc hp hb1 hb2 => ?_, by rfl, by rfl⟩
  have hw : rustIsWhitespace s.current = false := by rw [hc]; decide
  simp only [Lexer.nextTokenF]
  rw [Lexer.skip_whitespace_eq_self hw]
  have hcc : Lexer.handleCommentsF (n + 1) s =
      (none, (Lexer.blockLoopF (s.input.length + 1) 1 s.read_char).2) := by
    simp only [Lexer.handleCommentsF]
    rw [if_pos hc, if_neg (by rw [hp]; decide), if_pos hp]
    simp only [Lexer.read_char_input]
    rw [hb1]
    simp
  rw [hcc]
  have hI : (Lexer.blockLoopF (s.input.length + 1) 1
      s.read_char).2.input = s.input :=
    Lexer.blockLoopF_input _ 1 s.read_char
  exact Lexer.nextTokenBody_eof (by rw [hI]; exact hb2)

/-- C8 witness at the unterminated input "/*x". -/
theorem unterminated_block_comment_silent_eof_witness :
    Lexer.nextTokenF 2 ⟨"/*x".toList, 0⟩ =
      (Except.ok Token.EOF, ⟨"/*x".toList, 4⟩) :=
  unterminated_block_comment_silent_eof.1 0 ⟨"/*x".toList, 0⟩
    (by decide) (by decide) (by decide) (by decide)

/-- C9: the identifier/keyword scanner consumes the maximal run of
letters, digits and underscores starting at the current character (the
`takeWhile` of the remaining input), yields the keyword token exactly when
the entire run equals a table entry by string equality, and otherwise an
identifier carrying the run; the cursor resumes immediately after the run.
Hence "intx" is one identifier and "int x" starts with the keyword. -/
theorem identifier_maximal_munch :
    (∀ (n : Nat) (s : Lexer), isLetterOrUnderscoreChar s.current = true →
      Lexer.nextTokenF (n + 1) s =
        ((match keyword_map.find? (fun kv =>
            String.mk (s.current :: (s.input.drop (s.position + 1)).takeWhile
              isIdentContChar) == kv.1) with
          | some kv => Except.ok kv.2
          | none => Except.ok (Token.IDENTIFIER (s.current ::
              (s.input.drop (s.position + 1)).takeWhile isIdentContChar))),
         ⟨s.input, s.position +
           ((s.input.drop (s.position + 1)).takeWhile
             isIdentContChar).length + 1⟩)) ∧
    Lexer.lex "intx".toList =
      some (Except.ok [Token.IDENTIFIER ['i', 'n', 't', 'x'], Token.EOF]) ∧
    Lexer.lex "int x".toList =
      some (Except.ok [Token.TINTEGER, Token.IDENTIFIER ['x'],
        Token.EOF]) := by
  refine ⟨fun n s hl => ?_, by rfl, by rfl⟩
  have hw : rustIsWhitespace s.current = false := letter_not_ws hl
  have hs : s.current ≠ '/' := letter_ne hl (by decide)
  rw [Lexer.nextTokenF_plain hw hs n]
  have h1 : ¬(s.current = '=' ∨ s.current = '!' ∨ s.current = '<' ∨
      s.current = '>') := by
    simp only [not_or]
    exact ⟨letter_ne hl (by decide), letter_ne hl (by decide),
      letter_ne hl (by decide), letter_ne hl (by decide)⟩
  have h2 : ¬(s.current = '@') := letter_ne hl (by decide)
  have h3 : isDigitChar s.current = false := letter_not_digit hl
  simp only [Lexer.nextTokenBody, if_neg h1, if_neg h2, h3,
    Bool.false_eq_true, if_false, hl, if_true]
  rw [Lexer.handle_keywords_spec]
  cases hf : keyword_map.find? (fun kv =>
      String.mk (s.current :: (s.input.drop (s.position + 1)).takeWhile
        isIdentContChar) == kv.1) <;>
    simp [Lexer.read_char]

/-- C9 witness at the input "intx". -/
theorem identifier_maximal_munch_witness :
    Lexer.nextTokenF 1 ⟨"intx".toList, 0⟩ =
      (Except.ok (Token.IDENTIFIER ['i', 'n', 't', 'x']),
       ⟨"intx".toList, 4⟩) :=
  identifier_maximal_munch.1 0 ⟨"intx".toList, 0⟩ (by decide)

/-- C10: the `'*'` of a block-comment opener immediately followed by `'/'`
is itself combined with that `'/'` into a terminator (the loop starts at
the opener's `'*'` and sees `*/`), so `lex("/*/x")` succeeds with the
identifier `x` and the end-of-input token, rather than treating the rest of
the input as an unterminated comment. -/
theorem block_comment_opener_star_reused_as_closer :
    Lexer.lex "/*/x".toList =
      some (Except.ok [Token.IDENTIFIER ['x'], Token.EOF]) := by rfl
